import Mathlib

set_option maxRecDepth 8000
set_option maxHeartbeats 1000000

/-!
Shallow embedding of the creative ZIP upload backend (pelmorex-back-end).

The repository contains two versions of the same handler module:
* `src/handler.js` — exports `validateZipFile` and `processClickthroughUrls (body, type)`;
* `src/unnamed/part_001` — an alternate version of `handler.js` exporting
  `processClickthroughUrls ({ body, type = 'gwd' })`, paired with the test file
  `src/unnamed/part_000` (which imports from `./handler.js` and asserts the
  part_001 behaviour).

The two components with decision logic are embedded here:
* the ZIP content validator `validateZipFile` / `validateFile`;
* the clickthrough URL rewriter `processClickthroughUrls`.

Strings are modelled as `List Char` internally (JS strings are sequences of
code units; all the text the program manipulates is plain text where a char
corresponds to one code unit).  JavaScript regular-expression matching for the
two concrete regexes of the source
(`/.exit\([^\)]+\)/gm`, `/clickTag\s*=\s*["'](\S*)["']/gi`,
`/(["']https?:\/\/[^\s]+["'],)/g`, `/(["']https?:\/\/[^\s]+["'])/g`)
is embedded as dedicated, executable matchers with the exact
leftmost / greedy-with-backtracking semantics of those patterns.
`String.prototype.replace(searchString, replacementString)` is embedded
including the ECMA-262 `GetSubstitution` processing of `$$`, `$&`, the
dollar-backtick escape, and `$'` inside the replacement string.
-/

namespace Pelmorex

/-- The JavaScript whitespace class `\s`
(per ECMA-262: tab, LF, VT, FF, CR, space, NBSP, and the Unicode
space separators, line/paragraph separators and BOM). -/
def isJsSpace (c : Char) : Bool :=
  c == ' ' || c == '\t' || c == '\n' || c == '\r' ||
  c.toNat == 11 || c.toNat == 12 || c.toNat == 160 || c.toNat == 0x1680 ||
  (0x2000 ≤ c.toNat && c.toNat ≤ 0x200a) || c.toNat == 0x2028 || c.toNat == 0x2029 ||
  c.toNat == 0x202f || c.toNat == 0x205f || c.toNat == 0x3000 || c.toNat == 0xfeff

/-- The character class `["']` used by the URL regexes of the rewriter. -/
def isQuote (c : Char) : Bool := c == '"' || c == '\''

/-- `hasPre pat l` is true when `pat` is a leading segment of `l`. -/
def hasPre : List Char → List Char → Bool
  | [], _ => true
  | _ :: _, [] => false
  | a :: as, b :: bs => a == b && hasPre as bs

/-- Substring test: JS `String.prototype.includes` (what lodash `_.includes`
delegates to on strings). `hasSub needle hay`. -/
def hasSub (n : List Char) : List Char → Bool
  | [] => hasPre n []
  | c :: t => hasPre n (c :: t) || hasSub n t

/-- lodash `_.includes(string, substring)` (JS `String.prototype.includes`). -/
def includesStr (hay sub : String) : Bool := hasSub sub.toList hay.toList

/-- Split `l` at the first occurrence of `pat`: returns the part before the
occurrence and the part after it (the search performed by
`String.prototype.replace` with a string pattern, and by `String.indexOf`). -/
def splitFirst (pat : List Char) : List Char → Option (List Char × List Char)
  | [] => if hasPre pat [] then some ([], []) else none
  | c :: t =>
    if hasPre pat (c :: t) then some ([], (c :: t).drop pat.length)
    else (splitFirst pat t).map (fun p => (c :: p.1, p.2))

/-- ECMA-262 `GetSubstitution` for a string search pattern: expands, inside the
replacement string, `$$` to `$`, `$&` to the matched text `m`, the
dollar-backtick escape to the text `pre` preceding the match, and `$'` to the
text `post` following the match; any other `$` is literal (there are no capture
groups for a string pattern, so `$n` stays literal).  The char with code 96 is
the backtick. -/
def substDollar (m pre post : List Char) : List Char → List Char
  | [] => []
  | c :: rest =>
    if c = '$' then
      match rest with
      | [] => ['$']
      | d :: rest2 =>
        if d = '$' then '$' :: substDollar m pre post rest2
        else if d = '&' then m ++ substDollar m pre post rest2
        else if d = '\'' then post ++ substDollar m pre post rest2
        else if d.toNat = 96 then pre ++ substDollar m pre post rest2
        else c :: d :: substDollar m pre post rest2
    else c :: substDollar m pre post rest

/-- True when the list contains no active `$`-escape pair (`$$`, `$&`,
dollar-backtick, `$'`), i.e. `substDollar` leaves it verbatim. -/
def noActiveDollar : List Char → Bool
  | [] => true
  | c :: rest =>
    if c = '$' then
      match rest with
      | [] => true
      | d :: rest2 =>
        if d = '$' ∨ d = '&' ∨ d = '\'' ∨ d.toNat = 96 then false
        else noActiveDollar (d :: rest2)
    else noActiveDollar rest

/-- JS `String.prototype.replace(searchString, replacementString)`: replaces the
first occurrence of `pat` in `l` by `rep` after `GetSubstitution` processing of
`rep`; when `pat` does not occur the string is returned unchanged. -/
def jsReplaceFirst (l pat rep : List Char) : List Char :=
  match splitFirst pat l with
  | none => l
  | some (pre, post) => pre ++ substDollar pat pre post rep ++ post

/-- lodash `_.trimStart(str, chars)`: drop the leading run of characters drawn
from `chars`. -/
def trimStartL (chars l : List Char) : List Char := l.dropWhile (fun c => chars.contains c)

/-- lodash `_.trimEnd(str, chars)`: drop the trailing run of characters drawn
from `chars`. -/
def trimEndL (chars l : List Char) : List Char :=
  (l.reverse.dropWhile (fun c => chars.contains c)).reverse

/-- Greedy matcher for the regex fragment `https?:\/\/` (the scheme part of the
URL regexes); returns the consumed characters and the remainder. -/
def parseScheme : List Char → Option (List Char × List Char)
  | 'h' :: 't' :: 't' :: 'p' :: rest =>
    match rest with
    | 's' :: ':' :: '/' :: '/' :: r => some (['h', 't', 't', 'p', 's', ':', '/', '/'], r)
    | ':' :: '/' :: '/' :: r => some (['h', 't', 't', 'p', ':', '/', '/'], r)
    | _ => none
  | _ => none

/-- Shortest alternative of `gq`: the `+` repetition stops at `c` and the very
next character must be the closing quote. -/
def gqBase (c : Char) : List Char → Option (List Char × List Char)
  | q :: r => if isQuote q then some ([c, q], r) else none
  | [] => none

/-- Greedy matcher for the regex fragment `[^\s]+["']` (tail of the conversion
URL regex after the scheme): one-or-more non-space characters followed by a
quote, the repetition taken as long as possible (longest-first backtracking,
realised here by preferring the recursive extension over `gqBase`). -/
def gq : List Char → Option (List Char × List Char)
  | [] => none
  | c :: rest =>
    if isJsSpace c then none
    else ((gq rest).map (fun p => (c :: p.1, p.2))).orElse (fun _ => gqBase c rest)

/-- Shortest alternative of `gqc`: the `+` repetition stops at `c` and the next
two characters must be the closing quote and the comma. -/
def gqcBase (c : Char) : List Char → Option (List Char × List Char)
  | q :: ',' :: r => if isQuote q then some ([c, q, ','], r) else none
  | _ => none

/-- Greedy matcher for the regex fragment `[^\s]+["'],` (tail of the gwd URL
regex after the scheme): like `gq` but the closing quote must be followed by a
comma, which is part of the match. -/
def gqc : List Char → Option (List Char × List Char)
  | [] => none
  | c :: rest =>
    if isJsSpace c then none
    else ((gqc rest).map (fun p => (c :: p.1, p.2))).orElse (fun _ => gqcBase c rest)

/-- Greedy matcher for the regex fragment `(\S*)["']` (tail of the clickTag
regex): zero-or-more non-space characters followed by a quote, longest first
(the shortest alternative: the `*` is empty and `c` itself is the quote). -/
def gq0 : List Char → Option (List Char × List Char)
  | [] => none
  | c :: rest =>
    if isJsSpace c then none
    else
      ((gq0 rest).map (fun p => (c :: p.1, p.2))).orElse
        (fun _ => if isQuote c then some ([c], rest) else none)

/-- Anchored match of the URL regex at the head of the input:
`/(["']https?:\/\/[^\s]+["'],)/` when `wc` (the gwd variant, trailing comma
included in the match) and `/(["']https?:\/\/[^\s]+["'])/` otherwise (the
conversion variant).  Returns the matched text and the remainder. -/
def matchUrlAt (wc : Bool) : List Char → Option (List Char × List Char)
  | [] => none
  | q :: rest =>
    if isQuote q then
      match parseScheme rest with
      | some (sch, rest2) =>
        match (if wc then gqc rest2 else gq rest2) with
        | some (t, r) => some (q :: (sch ++ t), r)
        | none => none
      | none => none
    else none

/-- `clickTag` matched case-insensitively (the `i` flag of
`/clickTag\s*=\s*["'](\S*)["']/gi`), via ASCII case folding. -/
def isClickTagId (l : List Char) : Bool :=
  match l with
  | [c1, c2, c3, c4, c5, c6, c7, c8] =>
    c1.toLower == 'c' && c2.toLower == 'l' && c3.toLower == 'i' && c4.toLower == 'c' &&
    c5.toLower == 'k' && c6.toLower == 't' && c7.toLower == 'a' && c8.toLower == 'g'
  | _ => false

/-- Anchored match of `/clickTag\s*=\s*["'](\S*)["']/i` at the head of the
input: the identifier (case-insensitive), greedy whitespace, `=`, greedy
whitespace, a quote, then `(\S*)["']` greedy.  Returns the matched text and the
remainder. -/
def matchConversionAt : List Char → Option (List Char × List Char)
  | c1 :: c2 :: c3 :: c4 :: c5 :: c6 :: c7 :: c8 :: rest =>
    if isClickTagId [c1, c2, c3, c4, c5, c6, c7, c8] then
      let ws1 := rest.takeWhile isJsSpace
      match rest.dropWhile isJsSpace with
      | '=' :: rest2 =>
        let ws2 := rest2.takeWhile isJsSpace
        match rest2.dropWhile isJsSpace with
        | q :: rest3 =>
          if isQuote q then
            match gq0 rest3 with
            | some (t, r) =>
              some ([c1, c2, c3, c4, c5, c6, c7, c8] ++ ws1 ++ '=' :: ws2 ++ q :: t, r)
            | none => none
          else none
        | [] => none
      | _ => none
    else none
  | _ => none

/-- Split the input at the first `)`: returns the characters before it (all of
them different from `)`, newlines included — `[^\)]` also matches a newline)
and the remainder after the `)`. -/
def takeToParen : List Char → Option (List Char × List Char)
  | [] => none
  | c :: r =>
    if c = ')' then some ([], r)
    else (takeToParen r).map (fun p => (c :: p.1, p.2))

/-- Anchored match of `/.exit\([^\)]+\)/` at the head of the input: any
character except a newline (the leading `.`), the literal `exit(`, one or more
characters none of which is `)`, then `)`.  Returns the matched text and the
remainder. -/
def matchGwdAt : List Char → Option (List Char × List Char)
  | c :: 'e' :: 'x' :: 'i' :: 't' :: '(' :: after =>
    if c = '\n' then none
    else
      match takeToParen after with
      | some (inner, rest) =>
        if inner.isEmpty then none
        else some (c :: 'e' :: 'x' :: 'i' :: 't' :: '(' :: (inner ++ [')']), rest)
      | none => none
  | _ => none

/-- Fueled global replace: scan left to right; on an anchored match emit
`cb match` and resume after the match, otherwise copy one character.  This is
`String.prototype.replace` with a `g`-flagged regex and a callback replacer
(the callback result is used literally, per ECMA-262).  Every anchored match of
the matchers above consumes at least one character, so fuel equal to the input
length (as supplied by `replaceUrls`) is never exhausted. -/
def scanRepF (matchAt : List Char → Option (List Char × List Char))
    (cb : List Char → List Char) : Nat → List Char → List Char
  | 0, l => l
  | _ + 1, [] => []
  | n + 1, c :: rest =>
    match matchAt (c :: rest) with
    | some (mt, r) => cb mt ++ scanRepF matchAt cb n r
    | none => c :: scanRepF matchAt cb n rest

/-- Fueled global match collection: the list of matched substrings, leftmost,
non-overlapping — `String.prototype.match` with a `g`-flagged regex
(which returns `null`, i.e. the empty collection here, when nothing matches). -/
def scanMatchF (matchAt : List Char → Option (List Char × List Char)) :
    Nat → List Char → List (List Char)
  | 0, _ => []
  | _ + 1, [] => []
  | n + 1, c :: rest =>
    match matchAt (c :: rest) with
    | some (mt, r) => mt :: scanMatchF matchAt n r
    | none => scanMatchF matchAt n rest

/-- `params.replace(urlRegex, cb)` of the rewriter: global replace of the URL
regex (comma variant when `wc`) with callback `cb`. -/
def replaceUrls (wc : Bool) (cb : List Char → List Char) (l : List Char) : List Char :=
  scanRepF (matchUrlAt wc) cb l.length l

/-- Fueled scan asking whether the URL regex matches anywhere in the input. -/
def hasUrlF (wc : Bool) : Nat → List Char → Bool
  | 0, _ => false
  | _ + 1, [] => false
  | n + 1, c :: rest => (matchUrlAt wc (c :: rest)).isSome || hasUrlF wc n rest

/-- Whether the URL regex (`wc` selects the gwd comma variant) matches anywhere
in the input: `urlRegex.test(l)`. -/
def hasUrlMatch (wc : Bool) (l : List Char) : Bool := hasUrlF wc l.length l

/-- `body.match(regex)` of the rewriter: all matches of the outer regex
(`/.exit\([^\)]+\)/gm` when `gwd`, `/clickTag\s*=\s*["'](\S*)["']/gi`
otherwise). -/
def regexMatches (gwd : Bool) (l : List Char) : List (List Char) :=
  scanMatchF (if gwd then matchGwdAt else matchConversionAt) l.length l

/-- The indirection expression prefixed to every rewritten URL (the
`decodeUri` constant of src/unnamed/part_001; src/handler.js inlines the same
text in its template literal). -/
def decodeUri : List Char :=
  "decodeURIComponent(window.location.href.split('?adserver=')[1]) + ".toList

/-- The conversion-side trim chain
`_.chain(url).trim(squote).trim(dquote).value()` of both source versions. -/
def trimConv (url : List Char) : List Char :=
  trimEndL ['"'] (trimStartL ['"'] (trimEndL ['\''] (trimStartL ['\''] url)))

/-- The gwd-side trim chain
`_.chain(url).trimStart(squote).trimEnd(squote-comma).trimStart(dquote).trimEnd(dquote-comma).value()`
of both source versions. -/
def trimGwd (url : List Char) : List Char :=
  trimEndL ['"', ','] (trimStartL ['"'] (trimEndL ['\'', ','] (trimStartL ['\''] url)))

/-- part_001 gwd replacer: `decodeUri + squote trimmedUrl squote comma`. -/
def cbGwd (url : List Char) : List Char := decodeUri ++ '\'' :: trimGwd url ++ ['\'', ',']

/-- part_001 (and handler.js) conversion replacer:
`decodeUri + dquote trimmedUrl dquote`. -/
def cbConv (url : List Char) : List Char := decodeUri ++ '"' :: trimConv url ++ ['"']

/-- The per-match transformation `params.replace(urlRegex, url => ...)` of
src/unnamed/part_001 `processClickthroughUrls`. -/
def formatParams (gwd : Bool) (params : List Char) : List Char :=
  replaceUrls gwd (if gwd then cbGwd else cbConv) params

/-- `processClickthroughUrls` of src/unnamed/part_001 (the version whose
behaviour the test file src/unnamed/part_000 asserts): collect the outer-regex
matches of the body, rewrite each with the URL regex, and splice each rewritten
match back with a first-occurrence string replace. -/
def processClickthroughUrls (body : String) (type : String) : String :=
  let isGwd := type == "gwd"
  let ms := regexMatches isGwd body.toList
  (ms.foldl (fun out m => jsReplaceFirst out m (formatParams isGwd m)) body.toList).asString

namespace Handler

/-- handler.js replacer: both branches of the trim produce `trimmedUrl`, and the
returned template literal is `decodeUri + dquote trimmedUrl dquote` for BOTH
types — for gwd this drops the trailing comma that was part of the match and
re-quotes with double quotes. -/
def cbHandler (isConv : Bool) (url : List Char) : List Char :=
  decodeUri ++ '"' :: (if isConv then trimConv url else trimGwd url) ++ ['"']

/-- `processClickthroughUrls` of src/handler.js: same matching pipeline as the
part_001 version, but the replacement string is the handler.js template literal
(see `cbHandler`). -/
def processClickthroughUrls (body : String) (type : String) : String :=
  let isTypeConversion := type == "conversion"
  let ms := regexMatches (!isTypeConversion) body.toList
  (ms.foldl (fun out m =>
      jsReplaceFirst out m (replaceUrls (!isTypeConversion) (cbHandler isTypeConversion) m))
    body.toList).asString

end Handler

/-- `EXTRACT_DIRECTORY` of both handler versions. -/
def EXTRACT_DIRECTORY : String := "../../../../../tmp/rich-media-markup-extracted"

/-- The Google Web Designer generator marker checked by the gwd branch. -/
def gwdMetaMarker : String := "name=\"generator\" content=\"Google Web Designer"

/-- Fueled worker for `splitOnL`: repeatedly cut at the first occurrence of the
separator.  Fuel one more than the input length always suffices for a
non-empty separator, since every cut consumes at least the separator. -/
def splitOnAuxL (sep : List Char) : Nat → List Char → List (List Char)
  | 0, l => [l]
  | n + 1, l =>
    match splitFirst sep l with
    | none => [l]
    | some (pre, post) => pre :: splitOnAuxL sep n post

/-- JS `String.prototype.split(separator)` for a non-empty string separator
(what lodash `_.split` and the `.split(x)[0]` chains of the source use):
the pieces between the non-overlapping left-to-right occurrences of the
separator. -/
def splitOnL (sep l : List Char) : List (List Char) := splitOnAuxL sep (l.length + 1) l

/-- The derivation of the root file's own base name in the non-gwd branch of
`validateZipFile`: `_.replace` the extraction-directory prefix away (first
occurrence, empty replacement), take `.split('.html')[0]`, then
`.split('/')[0]`. -/
def deriveBaseName (rootHtmlFile fileBaseName : String) : String :=
  ((splitOnL "/".toList
    ((splitOnL ".html".toList
      (jsReplaceFirst rootHtmlFile.toList
        (EXTRACT_DIRECTORY ++ "/" ++ fileBaseName ++ "/").toList [])).headD [])).headD
    []).asString

/-- `validateZipFile` of src/handler.js.  The injected directory lister
`_getFiles` is modelled by its result `files` (the tests inject stubs returning
a fixed listing; the `path.resolve` plumbing of its argument is opaque to the
validator's logic); the injected `_readRootHtmlFile` is the function
`readRootHtmlFile`.  A `throw new VError(msg)` is `.error msg`.
src/unnamed/part_001 differs only for types other than `gwd` and `conversion`
(it then runs neither type-specific branch); on those two types both versions
perform the same checks in the same order. -/
def validateZipFile (type fileBaseName : String) (files : List String)
    (readRootHtmlFile : String → String) : Except String Bool :=
  match files.find? (fun file => includesStr file ".html") with
  | none => .error "Zip file does not contain a root .html file"
  | some rootHtmlFile =>
    if type = "gwd" then
      if (readRootHtmlFile rootHtmlFile).length < 1 then
        .error "Root .html file is missing content"
      else if !(includesStr (readRootHtmlFile rootHtmlFile) gwdMetaMarker) then
        .error "Root .html file does not contain Google Web Designer metadata"
      else if includesStr (readRootHtmlFile rootHtmlFile) "src=\"assets/" &&
          !((files.filter (fun file => includesStr file "assets/")).length > 0) then
        .error "Zip file is missing assets folder for linked assets"
      else .ok true
    else
      if !(includesStr fileBaseName (deriveBaseName rootHtmlFile fileBaseName)) then
        .error ("Zip file name '" ++ fileBaseName ++ "' does not contain basename '" ++
          deriveBaseName rootHtmlFile fileBaseName ++ "'")
      else if (readRootHtmlFile rootHtmlFile).length < 1 then
        .error "Root .html file is missing content"
      else .ok true

/-- `validateFile` of src/handler.js: the `switch (exporter)` dispatch — `gwd`
and `conversion` are passed through, every other exporter value falls into the
`default:` branch which calls `validateZipFile` with type `gwd`. -/
def validateFile (exporter fileBaseName : String) (files : List String)
    (readRootHtmlFile : String → String) : Except String Bool :=
  if exporter = "gwd" then validateZipFile exporter fileBaseName files readRootHtmlFile
  else if exporter = "conversion" then
    validateZipFile exporter fileBaseName files readRootHtmlFile
  else validateZipFile "gwd" fileBaseName files readRootHtmlFile

end Pelmorex
namespace Pelmorex

theorem hasPre_iff (pat : List Char) : ∀ l, hasPre pat l = true ↔ ∃ t, l = pat ++ t := by
  induction pat with
  | nil => intro l; simp [hasPre]
  | cons a as ih =>
    intro l
    cases l with
    | nil => simp [hasPre]
    | cons b bs =>
      simp only [hasPre, Bool.and_eq_true, beq_iff_eq, ih bs]
      constructor
      · rintro ⟨rfl, t, rfl⟩; exact ⟨t, rfl⟩
      · rintro ⟨t, h⟩
        injection h with h1 h2
        exact ⟨h1.symm, t, h2⟩

theorem hasPre_self_append (pat t : List Char) : hasPre pat (pat ++ t) = true :=
  (hasPre_iff pat _).mpr ⟨t, rfl⟩

theorem hasSub_of_hasPre {n l : List Char} (h : hasPre n l = true) : hasSub n l = true := by
  cases l with
  | nil => simpa [hasSub] using h
  | cons c t => simp [hasSub, h]

theorem splitFirst_sound (pat : List Char) :
    ∀ l pre post, splitFirst pat l = some (pre, post) → l = pre ++ pat ++ post := by
  intro l
  induction l with
  | nil =>
    intro pre post h
    simp only [splitFirst] at h
    split at h
    · rename_i hp
      have hpat : pat = [] := by
        cases pat with
        | nil => rfl
        | cons a as => simp [hasPre] at hp
      simp only [Option.some.injEq, Prod.mk.injEq] at h
      obtain ⟨h1, h2⟩ := h
      subst h1; subst h2; simp [hpat]
    · simp at h
  | cons c t ih =>
    intro pre post h
    simp only [splitFirst] at h
    split at h
    · rename_i hp
      obtain ⟨s, hs⟩ := (hasPre_iff pat (c :: t)).mp hp
      simp only [Option.some.injEq, Prod.mk.injEq] at h
      obtain ⟨h1, h2⟩ := h
      subst h1; subst h2
      rw [hs]
      simp [List.drop_append]
    · cases hsf : splitFirst pat t with
      | none => rw [hsf] at h; simp at h
      | some p =>
        rw [hsf] at h
        obtain ⟨p1, p2⟩ := p
        simp only [Option.map_some', Option.some.injEq, Prod.mk.injEq] at h
        obtain ⟨h1, h2⟩ := h
        rw [← h1, ← h2]
        simpa using congrArg (c :: ·) (ih p1 p2 hsf)

end Pelmorex
namespace Pelmorex

theorem noActiveDollar_cons (c : Char) (rest : List Char) :
    noActiveDollar (c :: rest) =
      if c = '$' then
        (match rest with
          | [] => true
          | d :: rest2 =>
            if d = '$' ∨ d = '&' ∨ d = '\'' ∨ d.toNat = 96 then false
            else noActiveDollar (d :: rest2))
      else noActiveDollar rest := by
  conv_lhs => unfold noActiveDollar

theorem substDollar_cons (m pre post : List Char) (c : Char) (rest : List Char) :
    substDollar m pre post (c :: rest) =
      if c = '$' then
        (match rest with
          | [] => ['$']
          | d :: rest2 =>
            if d = '$' then '$' :: substDollar m pre post rest2
            else if d = '&' then m ++ substDollar m pre post rest2
            else if d = '\'' then post ++ substDollar m pre post rest2
            else if d.toNat = 96 then pre ++ substDollar m pre post rest2
            else c :: d :: substDollar m pre post rest2)
      else c :: substDollar m pre post rest := by
  conv_lhs => unfold substDollar

theorem scanRepF_succ (matchAt : List Char → Option (List Char × List Char))
    (cb : List Char → List Char) (n : Nat) (c : Char) (rest : List Char) :
    scanRepF matchAt cb (n + 1) (c :: rest) =
      match matchAt (c :: rest) with
      | some (mt, r) => cb mt ++ scanRepF matchAt cb n r
      | none => c :: scanRepF matchAt cb n rest := rfl

theorem hasUrlF_succ (wc : Bool) (n : Nat) (c : Char) (rest : List Char) :
    hasUrlF wc (n + 1) (c :: rest) =
      ((matchUrlAt wc (c :: rest)).isSome || hasUrlF wc n rest) := rfl

theorem scanMatchF_succ (matchAt : List Char → Option (List Char × List Char))
    (n : Nat) (c : Char) (rest : List Char) :
    scanMatchF matchAt (n + 1) (c :: rest) =
      match matchAt (c :: rest) with
      | some (mt, r) => mt :: scanMatchF matchAt n r
      | none => scanMatchF matchAt n rest := rfl

theorem substDollar_noActive (m pre post : List Char) :
    ∀ r, noActiveDollar r = true → substDollar m pre post r = r := by
  have H : ∀ n r, List.length r ≤ n → noActiveDollar r = true →
      substDollar m pre post r = r := by
    intro n
    induction n with
    | zero =>
      intro r hr _
      cases r with
      | nil => rfl
      | cons c t => simp at hr
    | succ n ih =>
      intro r hr h
      match r with
      | [] => rfl
      | c :: rest =>
        by_cases hc : c = '$'
        · subst hc
          match rest with
          | [] => rw [substDollar_cons]; simp
          | d :: rest2 =>
            rw [noActiveDollar_cons, if_pos rfl] at h
            replace h : (if d = '$' ∨ d = '&' ∨ d = '\'' ∨ d.toNat = 96 then false
                else noActiveDollar (d :: rest2)) = true := h
            by_cases hd : d = '$' ∨ d = '&' ∨ d = '\'' ∨ d.toNat = 96
            · rw [if_pos hd] at h; exact absurd h (by simp)
            · rw [if_neg hd] at h
              push_neg at hd
              obtain ⟨hd1, hd2, hd3, hd4⟩ := hd
              have hr2 : List.length rest2 ≤ n := by
                simp only [List.length_cons] at hr; omega
              have hna : noActiveDollar rest2 = true := by
                rwa [noActiveDollar_cons, if_neg hd1] at h
              rw [substDollar_cons, if_pos rfl]
              show (if d = '$' then '$' :: substDollar m pre post rest2
                else if d = '&' then m ++ substDollar m pre post rest2
                else if d = '\'' then post ++ substDollar m pre post rest2
                else if d.toNat = 96 then pre ++ substDollar m pre post rest2
                else '$' :: d :: substDollar m pre post rest2) = '$' :: d :: rest2
              rw [if_neg hd1, if_neg hd2, if_neg hd3, if_neg hd4, ih rest2 hr2 hna]
        · have hr1 : List.length rest ≤ n := by
            simp only [List.length_cons] at hr; omega
          have hna : noActiveDollar rest = true := by
            rwa [noActiveDollar_cons, if_neg hc] at h
          rw [substDollar_cons, if_neg hc, ih rest hr1 hna]
  exact fun r => H (List.length r) r le_rfl

theorem noActiveDollar_append {xs ys : List Char} (hx : '$' ∉ xs)
    (hy : noActiveDollar ys = true) : noActiveDollar (xs ++ ys) = true := by
  induction xs with
  | nil => simpa
  | cons c t ih =>
    have hc : ¬(c = '$') := fun e => hx (e ▸ List.mem_cons_self c t)
    have ht : '$' ∉ t := fun mm => hx (List.mem_cons_of_mem _ mm)
    rw [List.cons_append, noActiveDollar_cons, if_neg hc]
    exact ih ht

theorem jsReplaceFirst_of_split {l pat pre post : List Char} (rep : List Char)
    (h : splitFirst pat l = some (pre, post)) :
    jsReplaceFirst l pat rep = pre ++ substDollar pat pre post rep ++ post := by
  simp [jsReplaceFirst, h]

theorem jsReplaceFirst_self {l pat : List Char} (h : noActiveDollar pat = true) :
    jsReplaceFirst l pat pat = l := by
  unfold jsReplaceFirst
  cases hs : splitFirst pat l with
  | none => rfl
  | some p =>
    obtain ⟨pre, post⟩ := p
    show pre ++ substDollar pat pre post pat ++ post = l
    rw [substDollar_noActive _ _ _ _ h]
    exact (splitFirst_sound pat l pre post hs).symm

theorem matchUrlAt_not_quote {wc : Bool} {c : Char} {l : List Char} (h : isQuote c = false) :
    matchUrlAt wc (c :: l) = none := by
  simp [matchUrlAt, h]

theorem scanRepF_nil (matchAt : List Char → Option (List Char × List Char))
    (cb : List Char → List Char) (n : Nat) : scanRepF matchAt cb n [] = [] := by
  cases n <;> rfl

theorem replaceUrls_cons_none {wc : Bool} {cb : List Char → List Char} {c : Char}
    {l : List Char} (h : matchUrlAt wc (c :: l) = none) :
    replaceUrls wc cb (c :: l) = c :: replaceUrls wc cb l := by
  simp [replaceUrls, List.length_cons, scanRepF_succ, h]

theorem replaceUrls_append_no_quote {wc : Bool} {cb : List Char → List Char} :
    ∀ xs ys, (∀ c ∈ xs, isQuote c = false) →
      replaceUrls wc cb (xs ++ ys) = xs ++ replaceUrls wc cb ys := by
  intro xs
  induction xs with
  | nil => intro ys _; simp
  | cons c t ih =>
    intro ys h
    have hm : matchUrlAt wc (c :: (t ++ ys)) = none :=
      matchUrlAt_not_quote (h c (List.mem_cons_self c t))
    rw [List.cons_append, replaceUrls_cons_none hm,
      ih ys (fun x hx => h x (List.mem_cons_of_mem _ hx))]
    rfl

theorem replaceUrls_match_all {wc : Bool} {cb : List Char → List Char} {mt : List Char}
    {l : List Char} (hne : l ≠ []) (h : matchUrlAt wc l = some (mt, [])) :
    replaceUrls wc cb l = cb mt := by
  cases l with
  | nil => exact absurd rfl hne
  | cons c rest =>
    simp [replaceUrls, List.length_cons, scanRepF_succ, h, scanRepF_nil]

theorem replaceUrls_no_url {wc : Bool} {cb : List Char → List Char} :
    ∀ l, hasUrlMatch wc l = false → replaceUrls wc cb l = l := by
  intro l
  induction l with
  | nil => intro _; rfl
  | cons c rest ih =>
    intro h
    simp only [hasUrlMatch, List.length_cons, hasUrlF_succ, Bool.or_eq_false_iff] at h
    have hm : matchUrlAt wc (c :: rest) = none :=
      Option.not_isSome_iff_eq_none.mp (by simp [h.1])
    rw [replaceUrls_cons_none hm, ih h.2]

theorem foldl_rewrite_inert (g : Bool) :
    ∀ (ms : List (List Char)) (out : List Char),
      (∀ m ∈ ms, hasUrlMatch g m = false ∧ noActiveDollar m = true) →
      ms.foldl (fun out m => jsReplaceFirst out m (formatParams g m)) out = out := by
  intro ms
  induction ms with
  | nil => intro out _; rfl
  | cons m ms ih =>
    intro out h
    have h1 := h m (List.mem_cons_self m ms)
    have hfmt : formatParams g m = m := replaceUrls_no_url m h1.1
    rw [List.foldl_cons, hfmt, jsReplaceFirst_self h1.2]
    exact ih out (fun x hx => h x (List.mem_cons_of_mem _ hx))

theorem process_noop_of_inert (body type : String)
    (h : ∀ m ∈ regexMatches (type == "gwd") body.toList,
      hasUrlMatch (type == "gwd") m = false ∧ noActiveDollar m = true) :
    processClickthroughUrls body type = body := by
  show ((regexMatches (type == "gwd") body.toList).foldl
      (fun out m => jsReplaceFirst out m (formatParams (type == "gwd") m))
      body.toList).asString = body
  rw [foldl_rewrite_inert _ _ _ h]
  rfl

end Pelmorex
namespace Pelmorex

theorem isQuote_cases {c : Char} (h : isQuote c = true) : c = '"' ∨ c = '\'' := by
  simpa [isQuote] using h

theorem isQuote_not_space {c : Char} (h : isQuote c = true) : isJsSpace c = false := by
  rcases isQuote_cases h with rfl | rfl <;> decide

theorem space_char_facts {c : Char} (h : isJsSpace c = true) :
    isQuote c = false ∧ c ≠ '$' := by
  constructor
  · cases hq : isQuote c with
    | false => rfl
    | true =>
      rcases isQuote_cases hq with rfl | rfl <;> exact absurd h (by decide)
  · rintro rfl; exact absurd h (by decide)

theorem gq_cons (c : Char) (rest : List Char) :
    gq (c :: rest) =
      if isJsSpace c then none
      else ((gq rest).map (fun p => (c :: p.1, p.2))).orElse (fun _ => gqBase c rest) := by
  conv_lhs => unfold gq

theorem gq_nil_quote {q : Char} (h : isJsSpace q = false) : gq [q] = none := by
  rw [gq_cons, if_neg (by simp [h])]
  rfl

theorem gq_url {u : List Char} (q' : Char) (hne : u ≠ [])
    (hns : ∀ c ∈ u, isJsSpace c = false) (hq' : isQuote q' = true) :
    gq (u ++ [q']) = some (u ++ [q'], []) := by
  induction u with
  | nil => exact absurd rfl hne
  | cons d u2 ih =>
    have hd : isJsSpace d = false := hns d (List.mem_cons_self d u2)
    cases u2 with
    | nil =>
      rw [List.cons_append, List.nil_append, gq_cons, if_neg (by simp [hd]),
        gq_nil_quote (isQuote_not_space hq')]
      simp [gqBase, hq']
    | cons e u3 =>
      have ih2 := ih (by simp)
        (fun x hx => hns x (List.mem_cons_of_mem _ hx))
      rw [List.cons_append, gq_cons, if_neg (by simp [hd]), ih2]
      rfl

theorem parseScheme_http (x : List Char) :
    parseScheme (['h', 't', 't', 'p', ':', '/', '/'] ++ x) =
      some (['h', 't', 't', 'p', ':', '/', '/'], x) := rfl

theorem parseScheme_https (x : List Char) :
    parseScheme (['h', 't', 't', 'p', 's', ':', '/', '/'] ++ x) =
      some (['h', 't', 't', 'p', 's', ':', '/', '/'], x) := rfl

theorem matchUrlAt_cons (wc : Bool) (q : Char) (rest : List Char) :
    matchUrlAt wc (q :: rest) =
      if isQuote q then
        match parseScheme rest with
        | some (sch, rest2) =>
          match (if wc then gqc rest2 else gq rest2) with
          | some (t, r) => some (q :: (sch ++ t), r)
          | none => none
        | none => none
      else none := by
  conv_lhs => unfold matchUrlAt

theorem matchUrlAt_quoted (q lc : Char) (sch u2 : List Char)
    (hq : isQuote q = true)
    (hsch : sch = ['h', 't', 't', 'p', ':', '/', '/'] ∨
      sch = ['h', 't', 't', 'p', 's', ':', '/', '/'])
    (hns : ∀ c ∈ u2 ++ [lc], isJsSpace c = false) :
    matchUrlAt false (q :: (sch ++ (u2 ++ [lc])) ++ [q]) =
      some (q :: (sch ++ (u2 ++ [lc])) ++ [q], []) := by
  have hgq : gq ((u2 ++ [lc]) ++ [q]) = some ((u2 ++ [lc]) ++ [q], []) :=
    gq_url q (by simp) hns hq
  have hshape : (q :: (sch ++ (u2 ++ [lc])) ++ [q]) =
      q :: (sch ++ ((u2 ++ [lc]) ++ [q])) := by simp
  rw [hshape, matchUrlAt_cons, if_pos hq]
  rcases hsch with rfl | rfl
  · rw [parseScheme_http]
    simp only [Bool.false_eq_true, if_false, hgq]
  · rw [parseScheme_https]
    simp only [Bool.false_eq_true, if_false, hgq]

end Pelmorex
namespace Pelmorex

theorem trimConv_quoted (q lc : Char) (mid : List Char) (hq : isQuote q = true)
    (hlc1 : lc ≠ '"') (hlc2 : lc ≠ '\'') :
    trimConv ((q :: (('h' :: mid) ++ [lc])) ++ [q]) = ('h' :: mid) ++ [lc] := by
  rcases isQuote_cases hq with rfl | rfl <;>
    simp [trimConv, trimStartL, trimEndL, List.dropWhile_cons, hlc1, hlc2]

theorem char_lower_facts {c t : Char} (h : c.toLower = t)
    (h1 : ('"'.toLower = t) → False) (h2 : ('\''.toLower = t) → False)
    (h3 : ('$'.toLower = t) → False) : isQuote c = false ∧ c ≠ '$' := by
  constructor
  · cases hqc : isQuote c with
    | false => rfl
    | true =>
      rcases isQuote_cases hqc with rfl | rfl
      · exact (h1 h).elim
      · exact (h2 h).elim
  · rintro rfl; exact (h3 h).elim

theorem isClickTagId_chars {l : List Char} (h : isClickTagId l = true) :
    ∀ c ∈ l, isQuote c = false ∧ c ≠ '$' := by
  unfold isClickTagId at h
  split at h
  · rename_i c1 c2 c3 c4 c5 c6 c7 c8
    simp only [Bool.and_eq_true, beq_iff_eq] at h
    obtain ⟨⟨⟨⟨⟨⟨⟨h1, h2⟩, h3⟩, h4⟩, h5⟩, h6⟩, h7⟩, h8⟩ := h
    intro c hc
    simp only [List.mem_cons, List.not_mem_nil, or_false] at hc
    rcases hc with rfl | rfl | rfl | rfl | rfl | rfl | rfl | rfl
    · exact char_lower_facts h1 (by decide) (by decide) (by decide)
    · exact char_lower_facts h2 (by decide) (by decide) (by decide)
    · exact char_lower_facts h3 (by decide) (by decide) (by decide)
    · exact char_lower_facts h4 (by decide) (by decide) (by decide)
    · exact char_lower_facts h5 (by decide) (by decide) (by decide)
    · exact char_lower_facts h6 (by decide) (by decide) (by decide)
    · exact char_lower_facts h7 (by decide) (by decide) (by decide)
    · exact char_lower_facts h8 (by decide) (by decide) (by decide)
  · exact absurd h (by simp)

end Pelmorex
namespace Pelmorex

theorem takeToParen_cons (c : Char) (r : List Char) :
    takeToParen (c :: r) =
      if c = ')' then some ([], r)
      else (takeToParen r).map (fun p => (c :: p.1, p.2)) := by
  conv_lhs => unfold takeToParen

theorem takeToParen_sound : ∀ l inner rest, takeToParen l = some (inner, rest) →
    l = inner ++ ')' :: rest ∧ ')' ∉ inner := by
  intro l
  induction l with
  | nil => intro inner rest h; exact absurd h (by simp [takeToParen])
  | cons c r ih =>
    intro inner rest h
    rw [takeToParen_cons] at h
    by_cases hc : c = ')'
    · subst hc
      rw [if_pos rfl] at h
      simp only [Option.some.injEq, Prod.mk.injEq] at h
      obtain ⟨h1, h2⟩ := h
      subst h1; subst h2
      exact ⟨rfl, by simp⟩
    · rw [if_neg hc] at h
      cases hm : takeToParen r with
      | none => rw [hm] at h; simp at h
      | some p =>
        obtain ⟨inner2, rest2⟩ := p
        rw [hm] at h
        simp only [Option.map_some', Option.some.injEq, Prod.mk.injEq] at h
        obtain ⟨h1, h2⟩ := h
        subst h2
        obtain ⟨he, hni⟩ := ih inner2 rest2 hm
        constructor
        · rw [← h1, he]; rfl
        · rw [← h1]
          intro hmem
          rcases List.mem_cons.mp hmem with heq | hmem2
          · exact hc heq.symm
          · exact hni hmem2

theorem matchGwdAt_shape {l mt r : List Char} (h : matchGwdAt l = some (mt, r)) :
    ∃ c inner, mt = c :: 'e' :: 'x' :: 'i' :: 't' :: '(' :: (inner ++ [')']) ∧
      c ≠ '\n' ∧ inner ≠ [] ∧ ')' ∉ inner := by
  rw [matchGwdAt.eq_def] at h
  split at h
  · rename_i c after
    split at h
    · simp at h
    · rename_i hc
      cases hm : takeToParen after with
      | none => rw [hm] at h; simp at h
      | some p =>
        obtain ⟨inner, rest⟩ := p
        rw [hm] at h
        replace h : (if inner.isEmpty = true then none
            else some (c :: 'e' :: 'x' :: 'i' :: 't' :: '(' :: (inner ++ [')']), rest))
            = some (mt, r) := h
        by_cases hne : inner.isEmpty = true
        · rw [if_pos hne] at h; simp at h
        · rw [if_neg hne] at h
          simp only [Option.some.injEq, Prod.mk.injEq] at h
          obtain ⟨h1, h2⟩ := h
          refine ⟨c, inner, h1.symm, hc, ?_, (takeToParen_sound after inner rest hm).2⟩
          simpa [List.isEmpty_iff] using hne
  · simp at h

theorem scanMatchF_mem (matchAt : List Char → Option (List Char × List Char))
    (P : List Char → Prop)
    (hP : ∀ l mt r, matchAt l = some (mt, r) → P mt) :
    ∀ n l m, m ∈ scanMatchF matchAt n l → P m := by
  intro n
  induction n with
  | zero => intro l m h; simp [scanMatchF] at h
  | succ n ih =>
    intro l m h
    cases l with
    | nil => simp [scanMatchF] at h
    | cons c rest =>
      rw [scanMatchF_succ] at h
      cases hm : matchAt (c :: rest) with
      | some p =>
        obtain ⟨mt, rr⟩ := p
        rw [hm] at h
        rcases List.mem_cons.mp h with rfl | h2
        · exact hP _ _ _ hm
        · exact ih rr m h2
      | none =>
        rw [hm] at h
        exact ih rest m h

end Pelmorex
namespace Pelmorex

theorem formatParams_conversion_single
    (preSeg : List Char) (q lc : Char) (sch u2 : List Char)
    (hpre : ∀ c ∈ preSeg, isQuote c = false)
    (hq : isQuote q = true)
    (hsch : sch = ['h', 't', 't', 'p', ':', '/', '/'] ∨
      sch = ['h', 't', 't', 'p', 's', ':', '/', '/'])
    (hns : ∀ c ∈ u2 ++ [lc], isJsSpace c = false)
    (hlc1 : lc ≠ '"') (hlc2 : lc ≠ '\'') :
    formatParams false (preSeg ++ ((q :: (sch ++ (u2 ++ [lc]))) ++ [q])) =
      preSeg ++ (decodeUri ++ ('"' :: (sch ++ (u2 ++ [lc]))) ++ ['"']) := by
  show replaceUrls false cbConv (preSeg ++ ((q :: (sch ++ (u2 ++ [lc]))) ++ [q])) =
    preSeg ++ (decodeUri ++ ('"' :: (sch ++ (u2 ++ [lc]))) ++ ['"'])
  rw [replaceUrls_append_no_quote _ _ hpre]
  congr 1
  rw [replaceUrls_match_all (by simp) (matchUrlAt_quoted q lc sch u2 hq hsch hns)]
  show decodeUri ++ ('"' :: trimConv ((q :: (sch ++ (u2 ++ [lc]))) ++ [q])) ++ ['"'] =
    decodeUri ++ ('"' :: (sch ++ (u2 ++ [lc]))) ++ ['"']
  rcases hsch with rfl | rfl
  · have hcore : ['h', 't', 't', 'p', ':', '/', '/'] ++ (u2 ++ [lc]) =
        ('h' :: (['t', 't', 'p', ':', '/', '/'] ++ u2)) ++ [lc] := by simp
    rw [hcore, trimConv_quoted q lc _ hq hlc1 hlc2]
  · have hcore : ['h', 't', 't', 'p', 's', ':', '/', '/'] ++ (u2 ++ [lc]) =
        ('h' :: (['t', 't', 'p', 's', ':', '/', '/'] ++ u2)) ++ [lc] := by simp
    rw [hcore, trimConv_quoted q lc _ hq hlc1 hlc2]

end Pelmorex
namespace Pelmorex

theorem includesStr_self_append (B rest : String) : includesStr (B ++ rest) B = true := by
  unfold includesStr
  apply hasSub_of_hasPre
  show hasPre B.data (B.data ++ rest.data) = true
  exact hasPre_self_append _ _

theorem validate_conversion_ok (declared : String) (files : List String)
    (reader : String → String) (root : String)
    (hfind : files.find? (fun file => includesStr file ".html") = some root)
    (hinc : includesStr declared (deriveBaseName root declared) = true)
    (hlen : 1 ≤ (reader root).length) :
    validateZipFile "conversion" declared files reader = .ok true := by
  unfold validateZipFile
  rw [hfind]
  show (if ("conversion" : String) = "gwd" then _ else _) = _
  rw [if_neg (by decide : ¬("conversion" : String) = "gwd"), hinc]
  simp only [Bool.not_true, Bool.false_eq_true, if_false]
  rw [if_neg (by omega)]

theorem validate_conversion_mismatch (declared : String) (files : List String)
    (reader : String → String) (root : String)
    (hfind : files.find? (fun file => includesStr file ".html") = some root)
    (hinc : includesStr declared (deriveBaseName root declared) = false) :
    validateZipFile "conversion" declared files reader
      = .error ("Zip file name '" ++ declared ++ "' does not contain basename '" ++
          deriveBaseName root declared ++ "'") := by
  unfold validateZipFile
  rw [hfind]
  show (if ("conversion" : String) = "gwd" then _ else _) = _
  rw [if_neg (by decide : ¬("conversion" : String) = "gwd"), hinc]
  simp only [Bool.not_false, if_true]

end Pelmorex
namespace Pelmorex

theorem validate_gwd_branch (declared : String) (files : List String)
    (reader : String → String) (root : String)
    (hfind : files.find? (fun file => includesStr file ".html") = some root)
    (hlen : 1 ≤ (reader root).length)
    (hmeta : includesStr (reader root) gwdMetaMarker = true) :
    validateZipFile "gwd" declared files reader =
      (if includesStr (reader root) "src=\"assets/" &&
          !((files.filter (fun file => includesStr file "assets/")).length > 0) then
        .error "Zip file is missing assets folder for linked assets"
      else .ok true) := by
  unfold validateZipFile
  rw [hfind]
  show (if ("gwd" : String) = "gwd" then _ else _) = _
  rw [if_pos rfl, if_neg (by omega), hmeta]
  simp only [Bool.not_true, Bool.false_eq_true, if_false]

theorem validate_gwd_assets_missing (declared : String) (files : List String)
    (reader : String → String) (root : String)
    (hfind : files.find? (fun file => includesStr file ".html") = some root)
    (hlen : 1 ≤ (reader root).length)
    (hmeta : includesStr (reader root) gwdMetaMarker = true)
    (hlink : includesStr (reader root) "src=\"assets/" = true)
    (hany : files.any (fun file => includesStr file "assets/") = false) :
    validateZipFile "gwd" declared files reader
      = .error "Zip file is missing assets folder for linked assets" := by
  rw [validate_gwd_branch declared files reader root hfind hlen hmeta]
  have hnil : files.filter (fun file => includesStr file "assets/") = [] := by
    rw [List.filter_eq_nil_iff]
    intro a ha hb
    have hx : files.any (fun file => includesStr file "assets/") = true :=
      List.any_eq_true.mpr ⟨a, ha, hb⟩
    rw [hany] at hx
    exact absurd hx (by simp)
  rw [hnil, hlink]
  simp

theorem validate_gwd_assets_present (declared : String) (files : List String)
    (reader : String → String) (root : String)
    (hfind : files.find? (fun file => includesStr file ".html") = some root)
    (hlen : 1 ≤ (reader root).length)
    (hmeta : includesStr (reader root) gwdMetaMarker = true)
    (hany : files.any (fun file => includesStr file "assets/") = true) :
    validateZipFile "gwd" declared files reader = .ok true := by
  rw [validate_gwd_branch declared files reader root hfind hlen hmeta]
  obtain ⟨x, hx, hpx⟩ := List.any_eq_true.mp hany
  have hmem : x ∈ files.filter (fun file => includesStr file "assets/") :=
    List.mem_filter.mpr ⟨hx, hpx⟩
  have hpos : 0 < (files.filter (fun file => includesStr file "assets/")).length :=
    List.length_pos.mpr (List.ne_nil_of_mem hmem)
  have hd : decide ((files.filter (fun file => includesStr file "assets/")).length > 0)
      = true := decide_eq_true hpos
  simp [hd]

theorem validate_no_html (type declared : String) (files : List String)
    (reader : String → String)
    (hall : ∀ f ∈ files, includesStr f ".html" = false) :
    validateZipFile type declared files reader
      = .error "Zip file does not contain a root .html file" := by
  have hfind : files.find? (fun file => includesStr file ".html") = none := by
    apply List.find?_eq_none.mpr
    intro x hx
    simp [hall x hx]
  unfold validateZipFile
  rw [hfind]

end Pelmorex
namespace Pelmorex

/-- Claim C1 — code bug in src/handler.js.  For a DesignerTool body, the
rewriter is claimed to substitute the quoted URL argument (with its trailing
comma) by the indirection expression plus the URL re-quoted with single quotes
and the comma re-appended.  The part_001 version (asserted verbatim by the test
file part_000) does exactly that, first conjunct; src/handler.js instead emits
the indirection plus a double-quoted URL and drops the trailing comma (losing
the argument separator), second conjunct; the two outputs differ, third
conjunct. -/
theorem C1_gwd_exit_rewrite_code_bug :
    processClickthroughUrls
      "gwd.actions.gwdGoogleAd.exit('gwd-ad', 'Btn-Exit', 'http://www.google.com/', true, true);"
      "gwd"
      = "gwd.actions.gwdGoogleAd.exit('gwd-ad', 'Btn-Exit', decodeURIComponent(window.location.href.split('?adserver=')[1]) + 'http://www.google.com/', true, true);"
    ∧ Handler.processClickthroughUrls
      "gwd.actions.gwdGoogleAd.exit('gwd-ad', 'Btn-Exit', 'http://www.google.com/', true, true);"
      "gwd"
      = "gwd.actions.gwdGoogleAd.exit('gwd-ad', 'Btn-Exit', decodeURIComponent(window.location.href.split('?adserver=')[1]) + \"http://www.google.com/\" true, true);"
    ∧ ("gwd.actions.gwdGoogleAd.exit('gwd-ad', 'Btn-Exit', decodeURIComponent(window.location.href.split('?adserver=')[1]) + 'http://www.google.com/', true, true);" : String)
      ≠ "gwd.actions.gwdGoogleAd.exit('gwd-ad', 'Btn-Exit', decodeURIComponent(window.location.href.split('?adserver=')[1]) + \"http://www.google.com/\" true, true);" := by
  refine ⟨?_, ?_, ?_⟩ <;> decide

/-- Claim C2 (amended) — for a Generic body consisting of a single clickTag
assignment (identifier case-insensitive, matched quotes, URL starting with
http or https, whitespace-free, not ending in a quote character, and without
dollar-escape sequences), the rewriter replaces the whole quoted literal by the
indirection expression plus the URL re-quoted with double quotes, preserving
the identifier spelling and all whitespace around the equals sign verbatim.
The dollar-escape proviso is the amendment: the counterexample shows that the
replacement-string processing of String.prototype.replace mangles URLs that
contain the escape pairs. -/
theorem C2_clicktag_assignment_rewrite
    (pre post id ws1 ws2 sch u2 : List Char) (q lc : Char)
    (hid : isClickTagId id = true)
    (hws : ∀ c ∈ ws1 ++ ws2, isJsSpace c = true)
    (hq : isQuote q = true)
    (hsch : sch = ['h', 't', 't', 'p', ':', '/', '/'] ∨
      sch = ['h', 't', 't', 'p', 's', ':', '/', '/'])
    (hns : ∀ c ∈ u2 ++ [lc], isJsSpace c = false)
    (hlc1 : lc ≠ '"') (hlc2 : lc ≠ '\'')
    (hdollar : noActiveDollar (u2 ++ [lc] ++ ['"']) = true)
    (hmatch : regexMatches false
        (pre ++ (id ++ ws1 ++ '=' :: ws2 ++ ((q :: (sch ++ (u2 ++ [lc]))) ++ [q])) ++ post)
      = [id ++ ws1 ++ '=' :: ws2 ++ ((q :: (sch ++ (u2 ++ [lc]))) ++ [q])])
    (hsplit : splitFirst (id ++ ws1 ++ '=' :: ws2 ++ ((q :: (sch ++ (u2 ++ [lc]))) ++ [q]))
        (pre ++ (id ++ ws1 ++ '=' :: ws2 ++ ((q :: (sch ++ (u2 ++ [lc]))) ++ [q])) ++ post)
      = some (pre, post)) :
    processClickthroughUrls
        (String.mk (pre ++ (id ++ ws1 ++ '=' :: ws2 ++
          ((q :: (sch ++ (u2 ++ [lc]))) ++ [q])) ++ post))
        "conversion"
      = String.mk (pre ++ (id ++ ws1 ++ '=' :: ws2 ++
          (decodeUri ++ ('"' :: (sch ++ (u2 ++ [lc]))) ++ ['"'])) ++ post) := by
  have hb : (("conversion" : String) == "gwd") = false := by decide
  show (List.asString ((regexMatches (("conversion" : String) == "gwd")
      (pre ++ (id ++ ws1 ++ '=' :: ws2 ++ ((q :: (sch ++ (u2 ++ [lc]))) ++ [q])) ++ post)).foldl
      (fun out m => jsReplaceFirst out m
        (formatParams (("conversion" : String) == "gwd") m))
      (pre ++ (id ++ ws1 ++ '=' :: ws2 ++ ((q :: (sch ++ (u2 ++ [lc]))) ++ [q])) ++ post)))
    = String.mk (pre ++ (id ++ ws1 ++ '=' :: ws2 ++
        (decodeUri ++ ('"' :: (sch ++ (u2 ++ [lc]))) ++ ['"'])) ++ post)
  rw [hb, hmatch]
  show (jsReplaceFirst
      (pre ++ (id ++ ws1 ++ '=' :: ws2 ++ ((q :: (sch ++ (u2 ++ [lc]))) ++ [q])) ++ post)
      (id ++ ws1 ++ '=' :: ws2 ++ ((q :: (sch ++ (u2 ++ [lc]))) ++ [q]))
      (formatParams false
        (id ++ ws1 ++ '=' :: ws2 ++ ((q :: (sch ++ (u2 ++ [lc]))) ++ [q])))).asString
    = String.mk (pre ++ (id ++ ws1 ++ '=' :: ws2 ++
        (decodeUri ++ ('"' :: (sch ++ (u2 ++ [lc]))) ++ ['"'])) ++ post)
  have hpreq : ∀ c ∈ id ++ ws1 ++ '=' :: ws2, isQuote c = false := by
    intro c hc
    rcases List.mem_append.mp hc with h12 | h4
    · rcases List.mem_append.mp h12 with h1 | h3
      · exact (isClickTagId_chars hid c h1).1
      · exact (space_char_facts (hws c (List.mem_append_left _ h3))).1
    · rcases List.mem_cons.mp h4 with rfl | h5
      · decide
      · exact (space_char_facts (hws c (List.mem_append_right _ h5))).1
  have hps : id ++ ws1 ++ '=' :: ws2 ++ ((q :: (sch ++ (u2 ++ [lc]))) ++ [q])
      = (id ++ ws1 ++ '=' :: ws2) ++ ((q :: (sch ++ (u2 ++ [lc]))) ++ [q]) := by simp
  have hfmt : formatParams false
      (id ++ ws1 ++ '=' :: ws2 ++ ((q :: (sch ++ (u2 ++ [lc]))) ++ [q]))
      = (id ++ ws1 ++ '=' :: ws2) ++
        (decodeUri ++ ('"' :: (sch ++ (u2 ++ [lc]))) ++ ['"']) := by
    rw [hps]
    exact formatParams_conversion_single _ q lc sch u2 hpreq hq hsch hns hlc1 hlc2
  rw [hfmt, jsReplaceFirst_of_split _ hsplit]
  have hshape : (id ++ ws1 ++ '=' :: ws2) ++
      (decodeUri ++ ('"' :: (sch ++ (u2 ++ [lc]))) ++ ['"'])
      = ((id ++ ws1 ++ '=' :: ws2) ++ decodeUri ++ '"' :: sch) ++ (u2 ++ [lc] ++ ['"']) := by
    simp
  have hnd : noActiveDollar ((id ++ ws1 ++ '=' :: ws2) ++
      (decodeUri ++ ('"' :: (sch ++ (u2 ++ [lc]))) ++ ['"'])) = true := by
    rw [hshape]
    apply noActiveDollar_append _ hdollar
    intro hmem
    rcases List.mem_append.mp hmem with hA | hB
    · rcases List.mem_append.mp hA with hA1 | hA2
      · rcases List.mem_append.mp hA1 with h12 | h4
        · rcases List.mem_append.mp h12 with h1 | h3
          · exact (isClickTagId_chars hid _ h1).2 rfl
          · exact (space_char_facts (hws _ (List.mem_append_left _ h3))).2 rfl
        · rcases List.mem_cons.mp h4 with he | h5
          · exact absurd he (by decide)
          · exact (space_char_facts (hws _ (List.mem_append_right _ h5))).2 rfl
      · have : ('$' : Char) ∉ decodeUri := by decide
        exact this hA2
    · rcases List.mem_cons.mp hB with he | h5
      · exact absurd he (by decide)
      · rcases hsch with rfl | rfl
        · exact absurd h5 (by decide)
        · exact absurd h5 (by decide)
  rw [substDollar_noActive _ _ _ _ hnd]
  exact congrArg String.mk (by simp)

theorem C2_clicktag_assignment_rewrite_witness :
    regexMatches false ("var clickTag  =  \"http://u1\"".toList)
      = ["clickTag  =  \"http://u1\"".toList]
    ∧ processClickthroughUrls "var clickTag  =  \"http://u1\"" "conversion"
      = "var clickTag  =  decodeURIComponent(window.location.href.split('?adserver=')[1]) + \"http://u1\"" := by
  refine ⟨by decide, ?_⟩
  have h := C2_clicktag_assignment_rewrite "var ".toList [] "clickTag".toList
    [' ', ' '] [' ', ' '] ['h', 't', 't', 'p', ':', '/', '/'] ['u'] '"' '1'
    (by decide) (by decide) (by decide) (Or.inl rfl) (by decide) (by decide) (by decide)
    (by decide) (by decide) (by decide)
  have e1 : String.mk ("var ".toList ++ ("clickTag".toList ++ [' ', ' '] ++ '=' :: [' ', ' '] ++
      (('"' :: (['h', 't', 't', 'p', ':', '/', '/'] ++ (['u'] ++ ['1']))) ++ ['"'])) ++ [])
      = "var clickTag  =  \"http://u1\"" := by decide
  have e2 : String.mk ("var ".toList ++ ("clickTag".toList ++ [' ', ' '] ++ '=' :: [' ', ' '] ++
      (decodeUri ++ ('"' :: (['h', 't', 't', 'p', ':', '/', '/'] ++ (['u'] ++ ['1']))) ++ ['"'])) ++ [])
      = "var clickTag  =  decodeURIComponent(window.location.href.split('?adserver=')[1]) + \"http://u1\"" := by
    decide
  rw [e1, e2] at h
  exact h

/-- Claim C2 counterexample — the claim as stated fails on the code: for a URL
containing the dollar-ampersand escape pair, the string-pattern
String.prototype.replace that splices the rewritten site back expands the
escape inside the replacement, so the output site is not the indirection
expression plus the double-quoted URL. -/
theorem C2_dollar_counterexample :
    processClickthroughUrls "clickTag = \"http://a$&b\"" "conversion"
      = "clickTag = decodeURIComponent(window.location.href.split('?adserver=')[1]) + \"http://aclickTag = \"http://a$&b\"b\""
    ∧ processClickthroughUrls "clickTag = \"http://a$&b\"" "conversion"
      ≠ "clickTag = decodeURIComponent(window.location.href.split('?adserver=')[1]) + \"http://a$&b\"" := by
  refine ⟨?_, ?_⟩ <;> decide

/-- Claim C3 — for Generic bundles: a declared base name of the form
"B (n)" validates successfully whenever the derived root base name is B (and
the root content is non-empty), for any parenthesised suffix; and a declared
name that does not contain the derived name C fails with exactly the message
naming both strings verbatim. -/
theorem C3_generic_basename_validation :
    (∀ (B n : String) (files : List String) (reader : String → String) (root : String),
      files.find? (fun file => includesStr file ".html") = some root →
      deriveBaseName root (B ++ " (" ++ n ++ ")") = B →
      1 ≤ (reader root).length →
      validateZipFile "conversion" (B ++ " (" ++ n ++ ")") files reader = .ok true)
    ∧ (∀ (declared C : String) (files : List String) (reader : String → String)
        (root : String),
      files.find? (fun file => includesStr file ".html") = some root →
      deriveBaseName root declared = C →
      includesStr declared C = false →
      validateZipFile "conversion" declared files reader
        = .error ("Zip file name '" ++ declared ++ "' does not contain basename '"
            ++ C ++ "'")) := by
  constructor
  · intro B n files reader root hfind hder hlen
    apply validate_conversion_ok _ _ _ _ hfind _ hlen
    rw [hder, String.append_assoc, String.append_assoc]
    exact includesStr_self_append _ _
  · intro declared C files reader root hfind hder hninc
    have h := validate_conversion_mismatch declared files reader root hfind
      (by rw [hder]; exact hninc)
    rw [hder] at h
    exact h

theorem C3_generic_basename_validation_witness :
    (["conversio-test-a.html", "images/test-image.png"].find?
        (fun file => includesStr file ".html") = some "conversio-test-a.html")
    ∧ validateZipFile "conversion" ("conversio-test-a" ++ " (" ++ "1" ++ ")")
        ["conversio-test-a.html", "images/test-image.png"] (fun _ => "<x/>") = .ok true
    ∧ validateZipFile "conversion" "conversio-test-a (1)"
        ["conversio-test-b.html", "images/test-image.png"] (fun _ => "<x/>")
      = .error ("Zip file name '" ++ "conversio-test-a (1)" ++ "' does not contain basename '"
          ++ "conversio-test-b" ++ "'") := by
  refine ⟨by decide, ?_, ?_⟩
  · exact C3_generic_basename_validation.1 "conversio-test-a" "1" _ _
      "conversio-test-a.html" (by decide) (by decide) (by decide)
  · exact C3_generic_basename_validation.2 "conversio-test-a (1)" "conversio-test-b" _ _
      "conversio-test-b.html" (by decide) (by decide) (by decide)

end Pelmorex
namespace Pelmorex

/-- Claim C4 (amended) — for a DesignerTool bundle (root present, content
non-empty, generator marker present) whose content references src="assets/:
if no path of the listing contains the SUBSTRING "assets/" validation fails
with exactly the missing-assets message, and if some path does contain it
validation returns true.  The amendment replaces the claim's "assets/ segment"
by substring containment: the counterexample shows a listing whose only
assets-like path has segment "myassets" (no "assets" segment at all) passing
validation because the code tests plain substring containment. -/
theorem C4_assets_substring_check :
    ∀ (declared : String) (files : List String) (reader : String → String) (root : String),
      files.find? (fun file => includesStr file ".html") = some root →
      1 ≤ (reader root).length →
      includesStr (reader root) gwdMetaMarker = true →
      includesStr (reader root) "src=\"assets/" = true →
      ((files.any (fun file => includesStr file "assets/") = false →
        validateZipFile "gwd" declared files reader
          = .error "Zip file is missing assets folder for linked assets")
      ∧ (files.any (fun file => includesStr file "assets/") = true →
        validateZipFile "gwd" declared files reader = .ok true)) := by
  intro declared files reader root hfind hlen hmeta hlink
  exact ⟨fun hany =>
      validate_gwd_assets_missing declared files reader root hfind hlen hmeta hlink hany,
    fun hany =>
      validate_gwd_assets_present declared files reader root hfind hlen hmeta hany⟩

theorem C4_assets_substring_check_witness :
    (["gwd-test-a.html"].find? (fun file => includesStr file ".html")
      = some "gwd-test-a.html")
    ∧ validateZipFile "gwd" "gwd-test-a" ["gwd-test-a.html"]
        (fun _ => "<meta name=\"generator\" content=\"Google Web Designer\"/><image src=\"assets/test-image.png\"/>")
      = .error "Zip file is missing assets folder for linked assets"
    ∧ validateZipFile "gwd" "gwd-test-a" ["gwd-test-a.html", "assets/test-image.png"]
        (fun _ => "<meta name=\"generator\" content=\"Google Web Designer\"/><image src=\"assets/test-image.png\"/>")
      = .ok true := by
  refine ⟨by decide, ?_, ?_⟩
  · exact (C4_assets_substring_check "gwd-test-a" ["gwd-test-a.html"] _ "gwd-test-a.html"
      (by decide) (by decide) (by decide) (by decide)).1 (by decide)
  · exact (C4_assets_substring_check "gwd-test-a" ["gwd-test-a.html", "assets/test-image.png"]
      _ "gwd-test-a.html" (by decide) (by decide) (by decide) (by decide)).2 (by decide)

/-- Claim C4 counterexample — a DesignerTool bundle whose content links
src="assets/ and whose listing has NO path with an "assets" segment
("myassets/test-image.png" has segments "myassets" and "test-image.png")
nevertheless validates to true, because the code checks the substring
"assets/", which occurs inside "myassets/"; the claim as stated demands a
failure with the missing-assets message here. -/
theorem C4_assets_segment_counterexample :
    validateZipFile "gwd" "gwd-test-a" ["gwd-test-a.html", "myassets/test-image.png"]
      (fun _ => "<meta name=\"generator\" content=\"Google Web Designer\"/><image src=\"assets/test-image.png\"/>")
      = .ok true
    ∧ (∀ p ∈ (["gwd-test-a.html", "myassets/test-image.png"] : List String),
        ¬ "assets".toList ∈ splitOnL "/".toList p.toList)
    ∧ includesStr
        "<meta name=\"generator\" content=\"Google Web Designer\"/><image src=\"assets/test-image.png\"/>"
        "src=\"assets/" = true := by
  refine ⟨by rfl, by decide, by decide⟩

/-- Claim C5 — a listing with no path containing ".html" is rejected with
exactly the missing-root-html message for every bundle type, and the result
does not depend on the injected file reader (the reader is never consulted:
the check short-circuits before any content rule, and no other error can be
produced). -/
theorem C5_missing_root_html_short_circuit :
    ∀ (type declared : String) (files : List String) (r1 r2 : String → String),
      (∀ f ∈ files, includesStr f ".html" = false) →
      (validateZipFile type declared files r1
          = .error "Zip file does not contain a root .html file"
        ∧ validateZipFile type declared files r1 = validateZipFile type declared files r2) := by
  intro type declared files r1 r2 hall
  refine ⟨validate_no_html type declared files r1 hall, ?_⟩
  rw [validate_no_html type declared files r1 hall,
    validate_no_html type declared files r2 hall]

theorem C5_missing_root_html_short_circuit_witness :
    (∀ f ∈ (["image.png"] : List String), includesStr f ".html" = false)
    ∧ validateZipFile "gwd" "b" ["image.png"] (fun _ => "x")
      = .error "Zip file does not contain a root .html file"
    ∧ validateZipFile "gwd" "b" ["image.png"] (fun _ => "x")
      = validateZipFile "gwd" "b" ["image.png"] (fun _ => "y") :=
  ⟨by decide,
   (C5_missing_root_html_short_circuit "gwd" "b" ["image.png"]
     (fun _ => "x") (fun _ => "y") (by decide)).1,
   (C5_missing_root_html_short_circuit "gwd" "b" ["image.png"]
     (fun _ => "x") (fun _ => "y") (by decide)).2⟩

/-- Claim C6 (amended) — a single application of the rewriter is deterministic
(identical body and type give identical output), and a second application
leaves the once-rewritten body unchanged PROVIDED every pattern occurrence the
second pass finds in it contains no rewritable URL and no dollar-escape pair.
The proviso is the amendment: the counterexample shows an already-rewritten
body that the second application changes again, because the original URL itself
embedded a clickTag assignment whose tail survives the first rewrite. -/
theorem C6_rewriter_reapplication :
    (∀ (b1 b2 t1 t2 : String), b1 = b2 → t1 = t2 →
      processClickthroughUrls b1 t1 = processClickthroughUrls b2 t2)
    ∧ (∀ (body type : String),
      (∀ m ∈ regexMatches (type == "gwd") (processClickthroughUrls body type).toList,
        hasUrlMatch (type == "gwd") m = false ∧ noActiveDollar m = true) →
      processClickthroughUrls (processClickthroughUrls body type) type
        = processClickthroughUrls body type) := by
  constructor
  · intro b1 b2 t1 t2 h1 h2
    rw [h1, h2]
  · intro body type h
    exact process_noop_of_inert _ _ h

theorem C6_rewriter_reapplication_witness :
    processClickthroughUrls "x" "gwd" = processClickthroughUrls "x" "gwd"
    ∧ (∀ m ∈ regexMatches ("gwd" == "gwd")
          (processClickthroughUrls "z.exit(a, 'http://u', x)" "gwd").toList,
        hasUrlMatch ("gwd" == "gwd") m = false ∧ noActiveDollar m = true)
    ∧ processClickthroughUrls
        (processClickthroughUrls "z.exit(a, 'http://u', x)" "gwd") "gwd"
      = processClickthroughUrls "z.exit(a, 'http://u', x)" "gwd" :=
  ⟨C6_rewriter_reapplication.1 "x" "x" "gwd" "gwd" rfl rfl,
   by decide,
   C6_rewriter_reapplication.2 "z.exit(a, 'http://u', x)" "gwd" (by decide)⟩

/-- Claim C6 counterexample — the claim as stated fails on the code: this
conversion body is rewritten once to the shown output, and applying the
rewriter a second time to that already-rewritten body changes it again (the
original URL embeds a clickTag= pattern that the second pass matches and
rewrites). -/
theorem C6_reapplication_counterexample :
    processClickthroughUrls "clickTag = \"http://a?clickTag='http://b'\"" "conversion"
      = "clickTag = decodeURIComponent(window.location.href.split('?adserver=')[1]) + \"http://a?clickTag='http://b'\""
    ∧ processClickthroughUrls
        "clickTag = decodeURIComponent(window.location.href.split('?adserver=')[1]) + \"http://a?clickTag='http://b'\""
        "conversion"
      ≠ "clickTag = decodeURIComponent(window.location.href.split('?adserver=')[1]) + \"http://a?clickTag='http://b'\"" := by
  refine ⟨?_, ?_⟩ <;> decide

/-- Claim C7 — the rewriter is a total function of (body, type); when the body
contains no occurrence of the type's clickthrough pattern (the outer-regex
match list is empty), the returned string is character-for-character the
input.  Zero, one or many occurrences run through the same substitution fold. -/
theorem C7_rewriter_noop_without_match :
    ∀ (body type : String),
      regexMatches (type == "gwd") body.toList = [] →
      processClickthroughUrls body type = body := by
  intro body type h
  show ((regexMatches (type == "gwd") body.toList).foldl
      (fun out m => jsReplaceFirst out m (formatParams (type == "gwd") m))
      body.toList).asString = body
  rw [h]
  rfl

theorem C7_rewriter_noop_without_match_witness :
    regexMatches ("gwd" == "gwd") "hello".toList = []
    ∧ processClickthroughUrls "hello" "gwd" = "hello" :=
  ⟨by decide, C7_rewriter_noop_without_match "hello" "gwd" (by decide)⟩

/-- Claim C8 (amended) — every match of the DesignerTool exit regex consists of
one leading character that is not a newline, the literal exit(, a non-empty
run of characters none of which is a close-parenthesis, and a final
close-parenthesis: the match runs to the FIRST close-parenthesis.  The
amendment drops the claim's "no match spans a newline": the character class
excludes only the close-parenthesis, so the interior may contain newlines, as
the counterexample shows. -/
theorem C8_exit_match_to_first_paren :
    ∀ (body m : List Char), m ∈ regexMatches true body →
      ∃ c inner, m = c :: 'e' :: 'x' :: 'i' :: 't' :: '(' :: (inner ++ [')'])
        ∧ c ≠ '\n' ∧ inner ≠ [] ∧ ')' ∉ inner := by
  intro body m hm
  exact scanMatchF_mem matchGwdAt _ (fun l mt r h => matchGwdAt_shape h)
    body.length body m hm

theorem C8_exit_match_to_first_paren_witness :
    ".exit(x,y)".toList ∈ regexMatches true ("a.exit(x,y)".toList)
    ∧ ∃ c inner, ".exit(x,y)".toList
        = c :: 'e' :: 'x' :: 'i' :: 't' :: '(' :: (inner ++ [')'])
        ∧ c ≠ '\n' ∧ inner ≠ [] ∧ ')' ∉ inner :=
  ⟨by decide, C8_exit_match_to_first_paren "a.exit(x,y)".toList ".exit(x,y)".toList (by decide)⟩

/-- Claim C8 counterexample — the claim as stated fails on the code: the body
below yields exactly one exit-regex match and that match contains a newline
character, so matches are not confined to one line. -/
theorem C8_newline_span_counterexample :
    regexMatches true ("a.exit(x,\ny)".toList) = [".exit(x,\ny)".toList]
    ∧ '\n' ∈ ".exit(x,\ny)".toList := by
  refine ⟨?_, ?_⟩ <;> decide

/-- Claim C9 (amended) — an exporter value that is neither gwd nor conversion
is NOT rejected: validateFile silently routes it through the DesignerTool
validation (the default switch branch calls validateZipFile with type gwd).
The counterexample shows an unknown exporter validating successfully. -/
theorem C9_unknown_exporter_defaults_to_gwd :
    ∀ (exporter fileBaseName : String) (files : List String) (reader : String → String),
      exporter ≠ "gwd" → exporter ≠ "conversion" →
      validateFile exporter fileBaseName files reader
        = validateZipFile "gwd" fileBaseName files reader := by
  intro e b files reader h1 h2
  unfold validateFile
  rw [if_neg h1, if_neg h2]

theorem C9_unknown_exporter_defaults_to_gwd_witness :
    (("unknown" : String) ≠ "gwd")
    ∧ validateFile "unknown" "b" ["a.html"] (fun _ => "x")
      = validateZipFile "gwd" "b" ["a.html"] (fun _ => "x") :=
  ⟨by decide,
   C9_unknown_exporter_defaults_to_gwd "unknown" "b" ["a.html"] (fun _ => "x")
     (by decide) (by decide)⟩

/-- Claim C9 counterexample — the claim as stated fails on the code: a bundle
declared with the unrecognized exporter "unknown" is not rejected as a
configuration error; it is validated (successfully here) through the silently
defaulted gwd rules. -/
theorem C9_unknown_exporter_counterexample :
    validateFile "unknown" "gwd-test-a" ["gwd-test-a.html", "assets/test-image.png"]
      (fun _ => "<meta name=\"generator\" content=\"Google Web Designer\"/>")
      = .ok true := by
  rfl

/-- Claim C10 (amended) — for either bundle type, when every pattern
occurrence in the body contains no quoted whitespace-free http:// or https://
literal (the URL regex does not match inside it) AND no dollar-escape pair,
the rewriter returns the body character-for-character unchanged.  The
dollar-escape proviso is the amendment: the counterexample shows an occurrence
whose quoted value does not start with http(s):// being altered anyway by the
escape processing of the string splice. -/
theorem C10_inert_matches_left_unchanged :
    ∀ (body type : String),
      (∀ m ∈ regexMatches (type == "gwd") body.toList,
        hasUrlMatch (type == "gwd") m = false ∧ noActiveDollar m = true) →
      processClickthroughUrls body type = body := by
  intro body type h
  exact process_noop_of_inert body type h

theorem C10_inert_matches_left_unchanged_witness :
    (∀ m ∈ regexMatches ("conversion" == "gwd") ("x clickTag='about:blank' y".toList),
      hasUrlMatch ("conversion" == "gwd") m = false ∧ noActiveDollar m = true)
    ∧ processClickthroughUrls "x clickTag='about:blank' y" "conversion"
      = "x clickTag='about:blank' y" :=
  ⟨by decide,
   C10_inert_matches_left_unchanged "x clickTag='about:blank' y" "conversion" (by decide)⟩

/-- Claim C10 counterexample — the claim as stated fails on the code: the body
below has exactly one clickTag occurrence, its quoted value does not start
with http:// or https:// (no URL-regex match inside the occurrence), yet the
rewriter does not leave the body unchanged, because the matched text contains
a dollar-ampersand escape that the string splice expands. -/
theorem C10_dollar_counterexample :
    regexMatches false ("A clickTag='q$&w' Z".toList) = ["clickTag='q$&w'".toList]
    ∧ hasUrlMatch false ("clickTag='q$&w'".toList) = false
    ∧ processClickthroughUrls "A clickTag='q$&w' Z" "conversion" ≠ "A clickTag='q$&w' Z" := by
  refine ⟨?_, ?_, ?_⟩ <;> decide

end Pelmorex
